import Mathlib

/-!
Verification of the ai-pipeline-orchestrator request-processing core.

This file gives a shallow embedding, in Lean, of the TypeScript sources of
the repository (the step executor in src/core, the keyword intent classifier
in src/intent/classifier.ts, the hybrid intent handler in
src/handlers/intent-handler.ts, the context optimizer in
src/context/optimizer.ts, the TTL cache in src/context/cache.ts, and the
textual LLM response parser in src/intent/llm-classifier-text.ts), and proves
or refutes the specified behaviour of each component.

Modelling conventions:
- JavaScript numbers used as scores, status codes and confidences are
  modelled as Nat, Int and ℚ; every arithmetic expression that appears in the
  sources is exact at these types, so no floating-point rounding is involved
  in any property proved here.  The one place where IEEE behaviour matters,
  parseFloat producing NaN, is modelled explicitly with an Option (none =
  NaN).
- JavaScript exceptions are modelled with Except String; a total Lean
  function returning Except models a function that either returns or throws.
- Promise-valued code is modelled by explicit state passing (the executor,
  the cache) with the atomic sections of the source (the code between two
  await points) becoming single steps.
- Wall-clock durations reported to observability callbacks are abstracted to
  0: no claim depends on them.
-/

namespace AIPO

/-! ## JS string and object helpers -/

/-- Whether the first list has the second as a prefix (character lists). -/
def listStartsWith : List Char → List Char → Bool
  | _, [] => true
  | [], _ :: _ => false
  | a :: as, b :: bs => (a == b) && listStartsWith as bs

/-- JS String.prototype.includes: substring test on character lists. -/
def listHasSub (needle : List Char) : List Char → Bool
  | [] => needle.isEmpty
  | c :: t => listStartsWith (c :: t) needle || listHasSub needle t

/-- JS String.prototype.includes on strings. -/
def strIncludes (hay needle : String) : Bool :=
  listHasSub needle.data hay.data

/-- JS String.prototype.toLowerCase (ASCII-faithful). -/
def jsToLower (s : String) : String :=
  String.mk (s.data.map Char.toLower)

/-- JS `keyword.split(' ').length`: one more than the number of spaces. -/
def wordCount (k : String) : Nat :=
  k.data.countP (fun c => c == ' ') + 1

/-- JS object property assignment obj[k] = v on an ordered key/value list:
an existing key keeps its position and gets the new value, a new key is
appended. -/
def setKey {β : Type _} (m : List (String × β)) (k : String) (v : β) :
    List (String × β) :=
  match m with
  | [] => [(k, v)]
  | (a, b) :: t => if a == k then (a, v) :: t else (a, b) :: setKey t k v

/-- JS object spread target update: fold every property of the second object
into the first, overwriting on key conflicts. -/
def mergeKeys {β : Type _} (acc res : List (String × β)) : List (String × β) :=
  res.foldl (fun m kv => setKey m kv.1 kv.2) acc

/-- JS property read obj[k] as an Option. -/
def getKey {β : Type _} (m : List (String × β)) (k : String) : Option β :=
  match m with
  | [] => none
  | (a, b) :: t => if a == k then some b else getKey t k

/-! ## Stable descending sort

JS Array.prototype.sort with a comparator `(a, b) => key(b) - key(a)` is a
stable sort placing larger keys first; elements with equal keys keep their
original relative order.  A stable sort is uniquely determined by the
comparator, so we model it with the stable insertion sort of Mathlib. -/

/-- The ordering used by the descending comparator sorts of the source. -/
def keyGe {β : Type _} (key : β → Int) (a b : β) : Prop := key b ≤ key a

instance {β : Type _} (key : β → Int) : DecidableRel (keyGe key) :=
  fun a b => inferInstanceAs (Decidable (key b ≤ key a))

instance {β : Type _} (key : β → Int) : IsTotal β (keyGe key) :=
  ⟨fun a b => (le_total (key a) (key b)).symm⟩

instance {β : Type _} (key : β → Int) : IsTrans β (keyGe key) :=
  ⟨fun _ _ _ h1 h2 => le_trans h2 h1⟩

/-- JS stable sort with comparator `(a, b) => key(b) - key(a)`. -/
def sortDescBy {β : Type _} (key : β → Int) (l : List β) : List β :=
  List.insertionSort (keyGe key) l

/-- Maximum of a list of naturals, 0 for the empty list. -/
def maxNat (l : List Nat) : Nat := l.foldr max 0

/-! ## Keyword intent classifier (src/intent/classifier.ts) -/

structure IntentPattern where
  category : String
  keywords : List String
deriving Repr, DecidableEq

/-- The optional per-category metadata tables of IntentConfig. -/
structure IntentMetaCfg where
  tones : Option (List (String × String)) := none
  deepLinks : Option (List (String × String)) := none
  requiresAuth : Option (List String) := none
deriving Repr, DecidableEq

structure IntentConfig where
  patterns : List IntentPattern
  metadata : Option IntentMetaCfg := none
deriving Repr, DecidableEq

/-- The metadata object attached to an intent result.  Absent JS properties
are `none`. -/
structure IntentMeta where
  deepLink : Option String := none
  tone : Option String := none
  requiresAuth : Option Bool := none
  classificationMethod : Option String := none
  reasoning : Option String := none
deriving Repr, DecidableEq

structure IntentResult where
  intent : String
  confidence : ℚ
  matchedKeywords : Option (List String) := none
  metadata : Option IntentMeta := none
deriving Repr, DecidableEq

/-- One entry of the intentScores array built by detectIntent. -/
structure ScoredIntent where
  intent : String
  score : Nat
  keywords : List String
deriving Repr, DecidableEq

/-- The per-pattern scoring loop of detectIntent: each keyword contained in
the lowercased message adds its word count to the score and is recorded. -/
def scoreOf (lower : String) (p : IntentPattern) : ScoredIntent :=
  let matched := p.keywords.filter (fun k => strIncludes lower k)
  { intent := p.category
    score := (matched.map wordCount).sum
    keywords := matched }

/-- Metadata attachment for the winning intent (the trailing block of
detectIntent): deepLink and tone are looked up in the optional tables,
requiresAuth is set only when listed. -/
def metaFor (m : IntentMetaCfg) (intent : String) : IntentMeta :=
  { deepLink := getKey (m.deepLinks.getD []) intent
    tone := getKey (m.tones.getD []) intent
    requiresAuth := if (m.requiresAuth.getD []).contains intent then some true else none }

/-- detectIntent of src/intent/classifier.ts. -/
def detectIntent (message : String) (config : IntentConfig) : IntentResult :=
  let lower := jsToLower message
  let intentScores :=
    (config.patterns.map (scoreOf lower)).filter (fun e => 0 < e.score)
  let sorted := sortDescBy (fun e => (e.score : Int)) intentScores
  match sorted with
  | [] => { intent := "general", confidence := 0, matchedKeywords := some [] }
  | best :: rest =>
    let bestScore : Nat := best.score
    let secondBestScore : Nat := ((rest.head?).map (fun e => e.score)).getD 0
    let margin : ℚ := (bestScore : ℚ) - (secondBestScore : ℚ)
    let confidence : ℚ := min (margin / max (bestScore : ℚ) 1) 1
    { intent := best.intent
      confidence := confidence
      matchedKeywords := some best.keywords
      metadata := config.metadata.map (fun m => metaFor m best.intent) }

/-- The positive per-pattern scores of a classification, in pattern order;
a pattern scores positively exactly when one of its keywords matched. -/
def posScores (message : String) (config : IntentConfig) : List Nat :=
  (((config.patterns.map (scoreOf (jsToLower message))).filter
    (fun e => 0 < e.score)).map (fun e => e.score))

/-! ## Step executor (executeOrchestration of src/core/orchestrator.ts)

Contexts are records with a request field, an optional error field and an
open string-keyed extension map; ρ is the request type and α the type of
extension values (both irrelevant to the executor, which only threads them).
Handlers, shouldExecute predicates and callbacks may throw; a throwing
computation is an `Except.error` carrying the JS error message. -/

/-- The error object stored on a context (the `error` field of
OrchestrationContext). -/
structure ErrObj where
  message : String
  statusCode : Int
  retryAfter : Option Int := none
  step : Option String := none
  details : Option String := none
deriving Repr, DecidableEq

/-- OrchestrationContext: request, optional error, extension properties. -/
structure Ctx (ρ α : Type _) where
  request : ρ
  error : Option ErrObj := none
  ext : List (String × α) := []
deriving Repr, DecidableEq

/-- OrchestrationStep. -/
structure OrchStep (ρ α : Type _) where
  name : String
  handler : Ctx ρ α → Except String (Ctx ρ α)
  enabled : Option Bool := none
  shouldExecute : Option (Ctx ρ α → Except String Bool) := none

/-- One entry of OrchestrationSteps: a single step or a parallel group. -/
inductive OrchEntry (ρ α : Type _) where
  | single (s : OrchStep ρ α)
  | group (g : List (OrchStep ρ α))

/-- The error view passed to the onError callback. -/
structure ErrView where
  step : String
  message : String
  statusCode : Int
  details : Option String := none
deriving Repr, DecidableEq

/-- OrchestratorConfig.  The logger is modelled as a no-op (console logging
cannot affect the result), and onIntentFallback / onVariantUsed are carried
by the TS type but never invoked by the executor, so they are elided. -/
structure OrchConfig (ρ α : Type _) where
  onStepComplete : Option (String → Nat → Except String Unit) := none
  onError : Option (ErrView → Except String Unit) := none
  includeErrorDetails : Option Bool := none

structure OrchResult (ρ α : Type _) where
  success : Bool
  context : Ctx ρ α
  error : Option ErrObj := none
deriving Repr, DecidableEq

/-- Optional-callback invocation `cb?.(x)`. -/
def fireCb {β : Type _} (cb : Option (β → Except String Unit)) (x : β) :
    Except String Unit :=
  match cb with
  | none => .ok ()
  | some f => f x

/-- Optional-callback invocation `onStepComplete?.(name, durationMs)`; the
duration is abstracted to 0. -/
def fireStepComplete (cb : Option (String → Nat → Except String Unit))
    (name : String) : Except String Unit :=
  match cb with
  | none => .ok ()
  | some f => f name 0

/-- JS object spread `{ ...acc, ...res }` on contexts: every own property of
`res` overwrites the one of `acc`.  `request` is always a property of `res`;
`error` is a property of `res` exactly when it is `some`. -/
def spreadCtx {ρ α : Type _} (acc res : Ctx ρ α) : Ctx ρ α :=
  { request := res.request
    error := match res.error with
      | some e => some e
      | none => acc.error
    ext := mergeKeys acc.ext res.ext }

/-- The joined name list used for a parallel group in error reports. -/
def joinNames {ρ α : Type _} (g : List (OrchStep ρ α)) : String :=
  String.intercalate ", " (g.map (fun s => s.name))

/-- The generic 500 failure built by the per-step catch block. -/
def mkErr500 (stepName msg : String) (incl : Bool) : ErrObj :=
  { message := "An error occurred while processing your request. Please try again."
    statusCode := 500
    step := some stepName
    details := if incl then some msg else none }

/-- executeSingleStep: skip when disabled, evaluate shouldExecute (which may
throw), run the handler (which may throw), then fire onStepComplete (which
may throw).  A throw anywhere surfaces as Except.error to the caller. -/
def executeSingleStep {ρ α : Type _} (config : OrchConfig ρ α)
    (step : OrchStep ρ α) (ctx : Ctx ρ α) : Except String (Ctx ρ α) :=
  if step.enabled = some false then .ok ctx
  else
    let runBody : Except String (Ctx ρ α) :=
      match step.handler ctx with
      | .error m => .error m
      | .ok result =>
        match fireStepComplete config.onStepComplete step.name with
        | .error m => .error m
        | .ok _ => .ok result
    match step.shouldExecute with
    | none => runBody
    | some p =>
      match p ctx with
      | .error m => .error m
      | .ok b => if b then runBody else .ok ctx

/-- Outcome of processing one plan entry: continue with a new rolling
context, stop with a final result, or propagate an exception to the outer
catch (which can only happen when onError itself throws inside the per-entry
catch block). -/
inductive EntryOut (ρ α : Type _) where
  | next (c : Ctx ρ α)
  | halt (r : OrchResult ρ α)
  | thrown (m : String)
deriving DecidableEq

/-- The error view handed to onError for a failure object. -/
def viewOf (stepName : String) (e : ErrObj) : ErrView :=
  { step := stepName, message := e.message, statusCode := e.statusCode,
    details := e.details }

/-- The per-entry catch block: record a generic 500 on the rolling context,
fire onError (whose own throw escapes to the outer catch), and stop. -/
def innerCatch {ρ α : Type _} (incl : Bool) (config : OrchConfig ρ α)
    (cur : Ctx ρ α) (stepName msg : String) : EntryOut ρ α :=
  let err := mkErr500 stepName msg incl
  let cur2 : Ctx ρ α := { cur with error := some err }
  match fireCb config.onError (viewOf stepName err) with
  | .ok _ => .halt { success := false, context := cur2, error := some err }
  | .error m => .thrown m

/-- First thrown message of a parallel group, in declaration order (the
rejection surfaced by Promise.all). -/
def firstThrow {ρ α : Type _} : List (Except String (Ctx ρ α)) → Option String
  | [] => none
  | .error m :: _ => some m
  | .ok _ :: t => firstThrow t

/-- First step (with its settled context and error) whose result carries an
error, in declaration order. -/
def findFirstErr {ρ α : Type _} :
    List (OrchStep ρ α × Ctx ρ α) → Option (OrchStep ρ α × Ctx ρ α × ErrObj)
  | [] => none
  | (s, c) :: t =>
    match c.error with
    | some e => some (s, c, e)
    | none => findFirstErr t

/-- Processing of one entry of the plan (the body of the `for` loop of
executeOrchestration, with its try/catch). -/
def runEntry {ρ α : Type _} (incl : Bool) (config : OrchConfig ρ α)
    (cur : Ctx ρ α) : OrchEntry ρ α → EntryOut ρ α
  | .single s =>
    match executeSingleStep config s cur with
    | .error m => innerCatch incl config cur s.name m
    | .ok result =>
      match result.error with
      | none => .next result
      | some e =>
        match fireCb config.onError (viewOf s.name e) with
        | .ok _ => .halt { success := false, context := result, error := some e }
        | .error m => innerCatch incl config cur s.name m
  | .group g =>
    let results := g.map (fun s => executeSingleStep config s cur)
    match firstThrow results with
    | some m => innerCatch incl config cur (joinNames g) m
    | none =>
      let oks := results.filterMap (fun r => r.toOption)
      match findFirstErr (g.zip oks) with
      | some (s, c, e) =>
        let failedStep := (e.step).getD s.name
        let ew : ErrObj := { e with step := some failedStep }
        match fireCb config.onError (viewOf failedStep ew) with
        | .ok _ =>
          .halt { success := false, context := { c with error := some ew },
                  error := some ew }
        | .error m => innerCatch incl config cur (joinNames g) m
      | none => .next (oks.foldl spreadCtx cur)

/-- The outer catch block of executeOrchestration. -/
def outerCatch {ρ α : Type _} (incl : Bool) (cur : Ctx ρ α) (msg : String) :
    OrchResult ρ α :=
  let err : ErrObj :=
    { message := "An unexpected error occurred. Please try again."
      statusCode := 500
      step := some "orchestration"
      details := if incl then some msg else none }
  { success := false, context := { cur with error := some err }, error := some err }

/-- The main loop of executeOrchestration over the plan entries. -/
def execLoop {ρ α : Type _} (incl : Bool) (config : OrchConfig ρ α) :
    Ctx ρ α → List (OrchEntry ρ α) → OrchResult ρ α
  | cur, [] => { success := true, context := cur, error := none }
  | cur, e :: rest =>
    match runEntry incl config cur e with
    | .next c => execLoop incl config c rest
    | .halt r => r
    | .thrown m => outerCatch incl cur m

/-- executeOrchestration.  `envProduction` models
`process.env.NODE_ENV` being the production marker, which supplies the default for
includeErrorDetails. -/
def executeOrchestration {ρ α : Type _} (ctx : Ctx ρ α)
    (steps : List (OrchEntry ρ α)) (config : OrchConfig ρ α)
    (envProduction : Bool) : OrchResult ρ α :=
  let incl := config.includeErrorDetails.getD (!envProduction)
  execLoop incl config ctx steps

/-! ## Hybrid intent handler (createIntentHandler of
src/handlers/intent-handler.ts) -/

inductive MsgRole where
  | user
  | assistant
  | system
  | tool
deriving Repr, DecidableEq

/-- One element of an array-valued message content: either a bare string or
an object with an optional text field. -/
inductive ContentPart where
  | cstr (s : String)
  | cobj (text : Option String)
deriving Repr, DecidableEq

inductive MsgContent where
  | text (s : String)
  | parts (l : List ContentPart)
deriving Repr, DecidableEq

structure ChatMessage where
  role : MsgRole
  content : MsgContent
deriving Repr, DecidableEq

/-- The content extraction of the handler: a string content is used as is,
an array content maps each part to its text (empty when missing) and joins
with single spaces. -/
def extractContent : MsgContent → String
  | .text s => s
  | .parts l =>
    String.intercalate " " (l.map (fun p =>
      match p with
      | .cstr s => s
      | .cobj t => t.getD ""))

/-- The result of an LLM classifier call. -/
structure LlmRes where
  intent : String
  confidence : ℚ
  reasoning : Option String := none
deriving Repr, DecidableEq

/-- The llmFallback part of IntentHandlerConfig; the classifier is any
function that may throw. -/
structure LlmFallbackCfg where
  enabled : Bool
  classify : String → Except String LlmRes
  confidenceThreshold : Option ℚ := none

/-- IntentHandlerConfig.  classifier is the IntentClassifier instance, whose
classify method is exactly detectIntent on its config.  onFallback is a
fire-and-forget observer whose result and rejections are discarded by the
source, so it cannot affect the returned context and is elided. -/
structure IntentHandlerConfig where
  classifier : IntentConfig
  llmFallback : Option LlmFallbackCfg := none
  contextKey : Option String := none

/-- The context type the intent handler operates on: the request carries the
message list, the intent extension slot carries intent results. -/
abbrev IntentCtx := Ctx (List ChatMessage) IntentResult

/-- The handler returned by createIntentHandler. -/
def intentHandler (cfg : IntentHandlerConfig) (ctx : IntentCtx) :
    Except String IntentCtx :=
  let confidenceThreshold :=
    ((cfg.llmFallback.map (fun fb => fb.confidenceThreshold)).join).getD (1/2)
  let contextKey := cfg.contextKey.getD "intent"
  let messages := ctx.request
  let store (v : IntentResult) : IntentCtx :=
    { ctx with ext := setKey ctx.ext contextKey v }
  match messages.getLast? with
  | none => .ok (store { intent := "general", confidence := 0 })
  | some lastMessage =>
    if lastMessage.role ≠ MsgRole.user then
      .ok (store { intent := "general", confidence := 0 })
    else
      let content := extractContent lastMessage.content
      let keywordResult := detectIntent content cfg.classifier
      match cfg.llmFallback with
      | none => .ok (store keywordResult)
      | some fb =>
        if confidenceThreshold ≤ keywordResult.confidence || !fb.enabled then
          .ok (store keywordResult)
        else
          match fb.classify content with
          | .error _ =>
            -- the catch block of the handler: degrade to the default
            .ok (store { intent := "general", confidence := 0 })
          | .ok llmResult =>
            let baseMeta := keywordResult.metadata.getD {}
            .ok (store
              { intent := llmResult.intent
                confidence := llmResult.confidence
                metadata := some { baseMeta with
                  classificationMethod := some "llm"
                  reasoning := llmResult.reasoning } })

/-! ## Context optimizer (buildContext of src/context/optimizer.ts) -/

inductive CtxMode where
  | full
  | selective
deriving Repr, DecidableEq, BEq

structure ContextSection where
  id : String
  name : Option String := none
  content : String
  topics : Option (List String) := none
  alwaysInclude : Option Bool := none
  priority : Option Int := none
deriving Repr, DecidableEq

structure ContextStrategy where
  firstMessage : CtxMode
  followUp : CtxMode
deriving Repr, DecidableEq

structure ContextConfig where
  sections : List ContextSection
  strategy : Option ContextStrategy := none
  toneInstructions : Option (List (String × String)) := none
deriving Repr, DecidableEq

structure ContextResult where
  systemPrompt : String
  sectionsIncluded : List String
  totalSections : Nat
  tokenEstimate : Nat
  maxTokenEstimate : Nat
deriving Repr, DecidableEq

/-- Math.ceil(n / 4) on a natural length. -/
def ceil4 (n : Nat) : Nat := (n + 3) / 4

/-- `useFullContext` of buildContext:
first messages use full context unless the first-message strategy is
selective; follow-ups use full context only when the follow-up strategy is
full; a missing strategy object behaves like neither comparison holding. -/
def useFullContext (strategy : Option ContextStrategy) (isFirstMessage : Bool) :
    Bool :=
  (isFirstMessage && !(match strategy with
    | some st => st.firstMessage == CtxMode.selective
    | none => false))
  || (!isFirstMessage && (match strategy with
    | some st => st.followUp == CtxMode.full
    | none => false))

/-- The selective filter of buildContext: keep a section when alwaysInclude
is truthy, otherwise when it has a non-empty topic list meeting the
requested topics. -/
def selFilter (topics : List String) (s : ContextSection) : Bool :=
  if s.alwaysInclude = some true then true
  else
    match s.topics with
    | none => false
    | some ts => if ts.isEmpty then false else ts.any (fun t => topics.contains t)

/-- The tone append step: the tone string and the looked-up instruction must
both be truthy (non-empty) in JS. -/
def appendTone (base : String) (toneInstructions : Option (List (String × String)))
    (tone : Option String) : String :=
  match tone with
  | none => base
  | some t =>
    if t = "" then base
    else
      match getKey (toneInstructions.getD []) t with
      | none => base
      | some instr => if instr = "" then base else base ++ "\n\n" ++ instr

/-- buildContext of src/context/optimizer.ts. -/
def buildContext (topics : List String) (isFirstMessage : Bool)
    (config : ContextConfig) (tone : Option String) : ContextResult :=
  let sections := config.sections
  let useFull := useFullContext config.strategy isFirstMessage
  let selectedSections :=
    if useFull then sections
    else sortDescBy (fun s => (s.priority).getD 0) (sections.filter (selFilter topics))
  let base := String.intercalate "\n\n" (selectedSections.map (fun s => s.content))
  let systemPrompt := appendTone base config.toneInstructions tone
  let allSectionsPrompt := String.intercalate "\n\n" (sections.map (fun s => s.content))
  { systemPrompt := systemPrompt
    sectionsIncluded := selectedSections.map (fun s => s.id)
    totalSections := sections.length
    tokenEstimate := ceil4 systemPrompt.length
    maxTokenEstimate := ceil4 allSectionsPrompt.length }

/-! ## TTL cache (src/context/cache.ts)

getOrLoad is asynchronous but contains no await between its entry and the
installation of the pending promise, so each of the following is one atomic
step of the JS event loop:
- a caller arriving (the cache check, the pending check, and possibly the
  loader invocation plus pendingLoads.set);
- the settlement of the in-flight promise (the try/catch continuation:
  write the entry and clear pending on success, clear pending on failure),
  which releases the same outcome to every caller awaiting that promise.
The machine below has exactly these steps, projected to one key; operations
on distinct keys touch disjoint map slots of the source and commute. -/

structure CacheSt (V : Type _) where
  /-- this.cache.get(key): value and expiresAt. -/
  entry : Option (V × Nat)
  /-- this.pendingLoads.get(key), together with the callers awaiting it
  (the initiating caller first, joiners in arrival order). -/
  pending : Option (List Nat)
  /-- number of loader() invocations so far. -/
  loads : Nat
  /-- callers that have completed, with the value or error they received. -/
  got : List (Nat × Except String V)
  /-- Date.now(), constant across one burst of concurrent calls. -/
  now : Nat

/-- The miss path of getOrLoad: join the in-flight load, or invoke the
loader and install the pending promise. -/
def arriveLoad {V : Type _} (c : Nat) (s : CacheSt V) : CacheSt V :=
  match s.pending with
  | some subs => { s with pending := some (subs ++ [c]) }
  | none => { s with pending := some [c], loads := s.loads + 1 }

/-- A caller entering getOrLoad: return the cached value when present and
unexpired, otherwise take the miss path. -/
def stepArrive {V : Type _} (c : Nat) (s : CacheSt V) : CacheSt V :=
  match s.entry with
  | some (v, exp) =>
    if s.now < exp then { s with got := s.got ++ [(c, .ok v)] }
    else arriveLoad c s
  | none => arriveLoad c s

/-- The in-flight load resolving with a value: write the entry with
expiresAt = now + ttl, clear pending, release the value to every waiter. -/
def stepResolveOk {V : Type _} (v : V) (ttl : Nat) (s : CacheSt V) : CacheSt V :=
  match s.pending with
  | none => s
  | some subs =>
    { s with entry := some (v, s.now + ttl)
             pending := none
             got := s.got ++ subs.map (fun c => (c, .ok v)) }

/-- The in-flight load rejecting: clear pending without touching the entry,
propagate the error to every waiter. -/
def stepResolveErr {V : Type _} (e : String) (s : CacheSt V) : CacheSt V :=
  match s.pending with
  | none => s
  | some subs =>
    { s with pending := none
             got := s.got ++ subs.map (fun c => (c, .error e)) }

/-! ## Textual LLM response parser (parseResponse of
src/intent/llm-classifier-text.ts) -/

/-- JS \w (the regex is not unicode-flagged): ASCII letters, digits,
underscore. -/
def isWordChar (c : Char) : Bool := c.isAlphanum || c == '_'

/-- JS \s on the ASCII range. -/
def isSpaceJs (c : Char) : Bool :=
  c == ' ' || c == '\t' || c == '\n' || c == '\r' ||
  c == '\x0b' || c == '\x0c'

/-- A digit or a dot: the character class of the CONFIDENCE capture. -/
def isConfChar (c : Char) : Bool := c.isDigit || c == '.'

/-- One attempt of matching /LABEL:\s*(SAT+)/i at the head of `cs`: the
lowercased text must start with the (lowercase) label, then whitespace is
skipped greedily and a non-empty run of capture characters is required.
The character classes are disjoint from \s, so no backtracking arises. -/
def tryLabeled (label : List Char) (sat : Char → Bool) (cs : List Char) :
    Option (List Char) :=
  if listStartsWith (cs.map Char.toLower) label then
    let rest := cs.drop label.length
    let run := (rest.dropWhile isSpaceJs).takeWhile sat
    if run.isEmpty then none else some run
  else none

/-- The capture of the first position at which /LABEL:\s*(SAT+)/i matches. -/
def findLabeledRun (label : List Char) (sat : Char → Bool) :
    List Char → Option (List Char)
  | [] => none
  | c :: t =>
    match tryLabeled label sat (c :: t) with
    | some r => some r
    | none => findLabeledRun label sat t

/-- Value of a digit list as a natural number (most significant first). -/
def digitsToNat (l : List Char) : Nat :=
  l.foldl (fun acc c => acc * 10 + (c.toNat - 48)) 0

/-- Fractional value of a digit list. -/
def fracToRat (l : List Char) : ℚ :=
  (digitsToNat l : ℚ) / ((10 : ℚ) ^ l.length)

/-- JS parseFloat on a string of digits and dots: parse the longest valid
prefix `\d*\.?\d*` containing at least one digit; `none` models NaN.  The
model is exact rationals; every bound proved about it is preserved by the
round-to-nearest conversion to float64, and NaN is represented exactly. -/
def jsParseFloat (run : List Char) : Option ℚ :=
  let intPart := run.takeWhile Char.isDigit
  let rest := run.drop intPart.length
  match rest with
  | '.' :: rest2 =>
    let frac := rest2.takeWhile Char.isDigit
    if intPart.isEmpty && frac.isEmpty then none
    else some ((digitsToNat intPart : ℚ) + fracToRat frac)
  | _ => if intPart.isEmpty then none else some (digitsToNat intPart : ℚ)

/-- JS Math.min(1, x) with NaN propagation. -/
def jsMin1 (x : Option ℚ) : Option ℚ := x.map (fun q => min 1 q)

/-- JS Math.max(0, x) with NaN propagation. -/
def jsMax0 (x : Option ℚ) : Option ℚ := x.map (fun q => max 0 q)

/-- The reasoning extraction /REASONING:\s*(.+?)(?:\n|$)/i followed by
String.prototype.trim, tried at each position.  After the label, if
dropping all whitespace leaves a character, the lazy capture runs to the
next newline or the end and is trimmed; otherwise the match can only
capture whitespace, which trims to the empty string, and succeeds exactly
when some non-newline character remains after the label. -/
def findReasoning : List Char → Option String
  | [] => none
  | c :: t =>
    let cs := c :: t
    let attempt : Option String :=
      if listStartsWith (cs.map Char.toLower) "reasoning:".data then
        let rest := cs.drop 10
        let m := rest.dropWhile isSpaceJs
        if !m.isEmpty then
          some (String.mk (m.takeWhile (fun ch => ch != '\n'))).trim
        else if rest.any (fun ch => ch != '\n') then some ""
        else none
      else none
    match attempt with
    | some r => some r
    | none => findReasoning t

/-- The parsed response: confidence is a JS number, `none` modelling NaN. -/
structure ParsedResponse where
  intent : String
  confidence : Option ℚ
  reasoning : Option String := none
deriving Repr, DecidableEq

/-- parseResponse of src/intent/llm-classifier-text.ts. -/
def parseResponse (text : String) (validCategories : List String) :
    ParsedResponse :=
  let intentRun := findLabeledRun "intent:".data isWordChar text.data
  let intent0 :=
    match intentRun with
    | some run => jsToLower (String.mk run)
    | none => "general"
  let intent := if validCategories.contains intent0 then intent0 else "general"
  let confidenceRun := findLabeledRun "confidence:".data isConfChar text.data
  let confidence :=
    match confidenceRun with
    | some run => jsMax0 (jsMin1 (jsParseFloat run))
    | none => some (1/2)
  { intent := intent
    confidence := confidence
    reasoning := findReasoning text.data }

/-! ## Concrete instances used by counterexamples and witnesses -/

/-- C4: the cache state at the start of a burst of concurrent calls. -/
def initSt {V : Type _} (entry0 : Option (V × Nat)) (now : Nat) : CacheSt V :=
  { entry := entry0, pending := none, loads := 0, got := [], now := now }

/-- C2: an active stage that overwrites the pre-existing extension key x. -/
def stageA : OrchStep Unit Nat :=
  { name := "A", handler := fun c => .ok { c with ext := setKey c.ext "x" 2 } }

/-- C2: a disabled stage; the executor still folds its result, which is the
group input snapshot itself, into the merge. -/
def stageB : OrchStep Unit Nat :=
  { name := "B", handler := fun c => .ok c, enabled := some false }

def cfg0 : OrchConfig Unit Nat := {}

/-- C2: group input snapshot with extension x = 1. -/
def cur0 : Ctx Unit Nat := { request := (), ext := [("x", 1)] }

/-- C2: the settled result of stage A on the snapshot. -/
def resA : Ctx Unit Nat := { request := (), ext := [("x", 2)] }

/-- C2 witness: the member-result function of the group [A, B]. -/
def osW : OrchStep Unit Nat → Ctx Unit Nat :=
  fun s => if s.name = "A" then resA else cur0

/-- C7: a stage whose handler replaces the request field. -/
def stageR : OrchStep Nat Nat :=
  { name := "R", handler := fun c => .ok { c with request := 2 } }

def cfgR : OrchConfig Nat Nat := {}

def curR : Ctx Nat Nat := { request := 1 }

/-- C7 witness: a stage preserving its input request. -/
def stageP : OrchStep Nat Nat :=
  { name := "P", handler := fun c => .ok { c with ext := setKey c.ext "p" 5 } }

def osP : OrchStep Nat Nat → Ctx Nat Nat :=
  fun _ => { request := 1, ext := [("p", 5)] }

/-- C8: a stage whose handler succeeds and records an extension. -/
def cbStep : OrchStep Unit Nat :=
  { name := "s1", handler := fun c => .ok { c with ext := setKey c.ext "done" 1 } }

/-- C8: a config whose onStepComplete callback throws. -/
def cbCfg : OrchConfig Unit Nat :=
  { onStepComplete := some (fun _ _ => .error "callback boom") }

/-- C10 witness: a stage whose handler throws. -/
def throwStep : OrchStep Unit Nat :=
  { name := "boom", handler := fun _ => .error "kaput" }

def cfgC10 : OrchConfig Unit Nat := {}

def curC10 : Ctx Unit Nat := { request := () }

/-- C1: the metadata tables of the repo test
tests/handlers/intent-handler.test.ts. -/
def c1metaTbl : IntentMetaCfg :=
  { tones := some [("greeting", "Be warm and welcoming"),
                   ("help", "Be patient and supportive"),
                   ("question", "Be informative and thorough"),
                   ("general", "Be helpful and friendly")]
    deepLinks := some [("help", "/help"), ("question", "/faq")]
    requiresAuth := some ["account"] }

/-- C1: the hybrid handler configuration of the repo test: keyword patterns
that do not cover math expressions, an LLM stub returning the question
intent with confidence 0.9.  The repo test uses the threshold 0.5; here the
threshold is 1, which takes the same low-confidence branch since the keyword
confidence on the failing input is 0, below either threshold. -/
def c1cfg : IntentHandlerConfig :=
  { classifier :=
      { patterns := [ { category := "greeting", keywords := ["hello", "hi"] },
                      { category := "help", keywords := ["help", "support"] },
                      { category := "question", keywords := ["what", "how"] } ]
        metadata := some c1metaTbl }
    llmFallback := some
      { enabled := true
        classify := fun _ => .ok
          { intent := "question", confidence := 9/10
            reasoning := some "User is asking a mathematical question" }
        confidenceThreshold := some 1 } }

/-- C1: the failing input, a user message the keyword tier cannot match. -/
def c1ctx : IntentCtx :=
  { request := [ { role := MsgRole.user, content := MsgContent.text "23 + 44" } ] }

/-- C1: the metadata object the handler actually stores on the LLM path. -/
def c1meta : IntentMeta :=
  { classificationMethod := some "llm"
    reasoning := some "User is asking a mathematical question" }

/-- C1: the intent record the handler actually stores. -/
def c1stored : IntentResult :=
  { intent := "question", confidence := 9/10, metadata := some c1meta }

/-- C1: the full context the handler returns. -/
def c1out : IntentCtx :=
  { request := [ { role := MsgRole.user, content := MsgContent.text "23 + 44" } ]
    ext := [("intent", c1stored)] }

/-- C6: a catalog with two sections bearing the same id. -/
def cfgDup : ContextConfig :=
  { sections := [ { id := "dup", content := "A", alwaysInclude := some true },
                  { id := "dup", content := "B", alwaysInclude := some true } ] }

/-- C5 witness: the pattern configuration of spec scenario 1. -/
def cfgW5 : IntentConfig :=
  { patterns := [ { category := "greeting", keywords := ["hello", "hi"] },
                  { category := "help", keywords := ["help"] } ] }

/-- C9 counterexample input: a CONFIDENCE field whose token has no digit;
parseFloat yields NaN, which escapes the clamp. -/
def c9badText : String := "INTENT: greeting" ++ "\n" ++ "CONFIDENCE: ."

/-! # Theorems -/

/-- C1.  The hybrid handler, on an LLM-fallback success, spreads the keyword
result metadata instead of looking the metadata up for the LLM-chosen
intent: on the test input of the repo itself (message "23 + 44", LLM stub answering
question/0.9, tables giving question the tone "Be informative and thorough"
and deep link "/faq"), the stored metadata carries classificationMethod and
reasoning but no tone and no deep link, while the lookup for the LLM-chosen
intent would have produced both. -/
theorem c1_llm_metadata_not_looked_up :
    intentHandler c1cfg c1ctx = Except.ok c1out
    ∧ getKey c1out.ext "intent" = some c1stored
    ∧ c1stored.metadata = some c1meta
    ∧ c1meta.tone = none
    ∧ c1meta.deepLink = none
    ∧ (metaFor c1metaTbl "question").tone = some "Be informative and thorough"
    ∧ (metaFor c1metaTbl "question").deepLink = some "/faq" := by
  refine ⟨rfl, rfl, rfl, by decide, by decide, by decide, by decide⟩

/-- C8.  A throwing onStepComplete callback is caught by the per-entry catch
block and fails the plan with a generic statusCode-500 failure, although the
stage handler itself succeeded; with the callback absent the same plan
succeeds. -/
theorem c8_callback_throw_fails_plan :
    executeOrchestration { request := () } [.single cbStep] cbCfg false
      = { success := false
          context := { request := (), error := some (mkErr500 "s1" "callback boom" true) }
          error := some (mkErr500 "s1" "callback boom" true) }
    ∧ (executeOrchestration { request := () } [.single cbStep]
        ({} : OrchConfig Unit Nat) false).success = true := by
  exact ⟨rfl, rfl⟩

/-- C2 counterexample.  Group [A, B] with A active (overwriting the
pre-existing extension x) and B disabled: the executor folds the results of
all group members, a skipped member contributing the input snapshot itself,
so the merged extension map is the snapshot value [("x", 1)] and not the
left-to-right fold [("x", 2)] of the results of the stages that executed. -/
theorem c2_counterexample :
    runEntry false cfg0 cur0 (.group [stageA, stageB])
      = .next { request := (), ext := [("x", 1)] }
    ∧ executeSingleStep cfg0 stageA cur0 = .ok resA
    ∧ [resA].foldl (fun acc c => mergeKeys acc c.ext) cur0.ext = [("x", 2)]
    ∧ ([("x", 1)] : List (String × Nat)) ≠ [("x", 2)] := by
  refine ⟨rfl, rfl, by decide, by decide⟩

/-- C7 counterexample.  A parallel stage whose handler replaces the request
field: after a successful group merge the request of the state is the
request of the stage (2), not that of the group input snapshot (1),
because the merge
spreads whole result objects. -/
theorem c7_counterexample :
    runEntry false cfgR curR (.group [stageR])
      = .next { request := 2 }
    ∧ curR.request = 1
    ∧ (2 : Nat) ≠ 1 := by
  refine ⟨rfl, by decide, by decide⟩

/-- C6 counterexample.  Two sections with the same id "dup" in one selective
selection: the optimizer does not deduplicate, both occurrences appear in
sectionsIncluded and both contents are joined into the system prompt. -/
theorem c6_counterexample :
    (buildContext [] false cfgDup none).sectionsIncluded = ["dup", "dup"]
    ∧ (buildContext [] false cfgDup none).sectionsIncluded.count "dup" = 2
    ∧ (buildContext [] false cfgDup none).systemPrompt = "A" ++ "\n\n" ++ "B"
    ∧ ¬ (2 : Nat) ≤ 1 := by
  refine ⟨by decide, by decide, by decide, by decide⟩

/-! ## Executor lemmas -/

theorem firstThrow_ok_map {ρ α : Type _} (l : List (Ctx ρ α)) :
    firstThrow (l.map Except.ok) = none := by
  induction l with
  | nil => rfl
  | cons c t ih => simpa [firstThrow] using ih

theorem filterMap_toOption_map_ok {ρ α : Type _} (l : List (Ctx ρ α)) :
    ((l.map Except.ok).filterMap
      (fun r : Except String (Ctx ρ α) => r.toOption)) = l := by
  induction l with
  | nil => rfl
  | cons c t ih => simpa [List.filterMap_cons, Except.toOption] using ih

theorem findFirstErr_none {ρ α : Type _} (g : List (OrchStep ρ α))
    (os : OrchStep ρ α → Ctx ρ α) (h : ∀ s ∈ g, (os s).error = none) :
    findFirstErr (g.zip (g.map os)) = none := by
  induction g with
  | nil => rfl
  | cons s t ih =>
    have hs := h s (List.mem_cons_self s t)
    simp only [List.map_cons, List.zip_cons_cons, findFirstErr, hs]
    exact ih (fun s' hs' => h s' (List.mem_cons_of_mem s hs'))

/-- When every member of a parallel group settles without throwing and
without an error field, the executor merges by folding all member results,
in declaration order, over the group input snapshot. -/
theorem runEntry_group_ok {ρ α : Type _} (incl : Bool) (config : OrchConfig ρ α)
    (cur : Ctx ρ α) (g : List (OrchStep ρ α)) (os : OrchStep ρ α → Ctx ρ α)
    (h : ∀ s ∈ g, executeSingleStep config s cur = Except.ok (os s))
    (herr : ∀ s ∈ g, (os s).error = none) :
    runEntry incl config cur (.group g) = .next ((g.map os).foldl spreadCtx cur) := by
  have hres : g.map (fun s => executeSingleStep config s cur)
      = (g.map os).map Except.ok := by
    rw [List.map_map]
    exact List.map_congr_left h
  simp only [runEntry, hres, firstThrow_ok_map, filterMap_toOption_map_ok,
    findFirstErr_none g os herr]

theorem foldl_spread_ext {ρ α : Type _} (l : List (Ctx ρ α)) (a : Ctx ρ α) :
    (l.foldl spreadCtx a).ext
      = l.foldl (fun x c => mergeKeys x c.ext) a.ext := by
  induction l generalizing a with
  | nil => rfl
  | cons c t ih =>
    simpa [List.foldl_cons] using ih (spreadCtx a c)

theorem foldl_spread_request {ρ α : Type _} (l : List (Ctx ρ α)) (a : Ctx ρ α)
    (h : ∀ c ∈ l, c.request = a.request) :
    (l.foldl spreadCtx a).request = a.request := by
  induction l generalizing a with
  | nil => rfl
  | cons c t ih =>
    have h1 : (spreadCtx a c).request = a.request := h c (List.mem_cons_self c t)
    rw [List.foldl_cons, ih (spreadCtx a c) ?_, h1]
    intro c' hc'
    rw [h1]
    exact h c' (List.mem_cons_of_mem c hc')

theorem foldl_spread_error {ρ α : Type _} (l : List (Ctx ρ α)) (a : Ctx ρ α)
    (h : ∀ c ∈ l, c.error = none) :
    (l.foldl spreadCtx a).error = a.error := by
  induction l generalizing a with
  | nil => rfl
  | cons c t ih =>
    have h1 : (spreadCtx a c).error = a.error := by
      simp [spreadCtx, h c (List.mem_cons_self c t)]
    rw [List.foldl_cons, ih (spreadCtx a c) ?_, h1]
    intro c' hc'
    exact h c' (List.mem_cons_of_mem c hc')

/-- C2 (amended).  For a parallel group in which every member settles
without a failure descriptor, the merged state folds, in declaration order,
the results of all group members over the group input snapshot, where a
result of a skipped member is the input snapshot itself; the merged extensions
are the corresponding fold of the per-member extension maps, later members
overwriting earlier ones on key conflicts. -/
theorem c2_parallel_merge {ρ α : Type _} (incl : Bool) (config : OrchConfig ρ α)
    (cur : Ctx ρ α) (g : List (OrchStep ρ α)) (os : OrchStep ρ α → Ctx ρ α)
    (h : ∀ s ∈ g, executeSingleStep config s cur = Except.ok (os s))
    (herr : ∀ s ∈ g, (os s).error = none) :
    runEntry incl config cur (.group g) = .next ((g.map os).foldl spreadCtx cur)
    ∧ ((g.map os).foldl spreadCtx cur).ext
        = (g.map os).foldl (fun acc c => mergeKeys acc c.ext) cur.ext :=
  ⟨runEntry_group_ok incl config cur g os h herr, foldl_spread_ext _ _⟩

/-- C2 witness: the group [A, B] of the counterexample instances, evaluated
through the amended theorem. -/
theorem c2_witness :
    (∀ s ∈ [stageA, stageB], executeSingleStep cfg0 s cur0 = Except.ok (osW s))
    ∧ runEntry false cfg0 cur0 (.group [stageA, stageB])
        = .next (([stageA, stageB].map osW).foldl spreadCtx cur0)
    ∧ (([stageA, stageB].map osW).foldl spreadCtx cur0).ext
        = ([stageA, stageB].map osW).foldl (fun acc c => mergeKeys acc c.ext) cur0.ext := by
  have h : ∀ s ∈ [stageA, stageB], executeSingleStep cfg0 s cur0 = Except.ok (osW s) := by
    intro s hs
    rcases List.mem_cons.mp hs with rfl | hs2
    · rfl
    · rcases List.mem_cons.mp hs2 with rfl | hs3
      · rfl
      · cases hs3
  have herr : ∀ s ∈ [stageA, stageB], (osW s).error = none := by
    intro s hs
    rcases List.mem_cons.mp hs with rfl | hs2
    · rfl
    · rcases List.mem_cons.mp hs2 with rfl | hs3
      · rfl
      · cases hs3
  have hmain := c2_parallel_merge false cfg0 cur0 [stageA, stageB] osW h herr
  exact ⟨h, hmain.1, hmain.2⟩

/-- C7 (amended).  After a successful parallel merge the error field is that
of the group input snapshot (no member contributes one), and the request
field equals the request of the input snapshot whenever every member result
preserves its input request, as every copy-on-write handler does; in
general, however, the merge spreads whole result objects, so the request
field comes from the last-listed member result. -/
theorem c7_parallel_frame {ρ α : Type _} (incl : Bool) (config : OrchConfig ρ α)
    (cur : Ctx ρ α) (g : List (OrchStep ρ α)) (os : OrchStep ρ α → Ctx ρ α)
    (h : ∀ s ∈ g, executeSingleStep config s cur = Except.ok (os s))
    (herr : ∀ s ∈ g, (os s).error = none)
    (hreq : ∀ s ∈ g, (os s).request = cur.request) :
    runEntry incl config cur (.group g) = .next ((g.map os).foldl spreadCtx cur)
    ∧ ((g.map os).foldl spreadCtx cur).request = cur.request
    ∧ ((g.map os).foldl spreadCtx cur).error = cur.error := by
  refine ⟨runEntry_group_ok incl config cur g os h herr, ?_, ?_⟩
  · refine foldl_spread_request _ _ ?_
    intro c hc
    rcases List.mem_map.mp hc with ⟨s, hs, rfl⟩
    exact hreq s hs
  · refine foldl_spread_error _ _ ?_
    intro c hc
    rcases List.mem_map.mp hc with ⟨s, hs, rfl⟩
    exact herr s hs

/-- C7 witness: a singleton group with a request-preserving handler. -/
theorem c7_witness :
    (∀ s ∈ [stageP], executeSingleStep cfgR s curR = Except.ok (osP s))
    ∧ runEntry false cfgR curR (.group [stageP])
        = .next (([stageP].map osP).foldl spreadCtx curR)
    ∧ (([stageP].map osP).foldl spreadCtx curR).request = curR.request
    ∧ (([stageP].map osP).foldl spreadCtx curR).error = curR.error := by
  have h : ∀ s ∈ [stageP], executeSingleStep cfgR s curR = Except.ok (osP s) := by
    intro s hs
    rcases List.mem_cons.mp hs with rfl | hs2
    · rfl
    · cases hs2
  have herr : ∀ s ∈ [stageP], (osP s).error = none := by
    intro s hs; rfl
  have hreq : ∀ s ∈ [stageP], (osP s).request = curR.request := by
    intro s hs; rfl
  have hmain := c7_parallel_frame false cfgR curR [stageP] osP h herr hreq
  exact ⟨h, hmain.1, hmain.2.1, hmain.2.2⟩

/-- C10.  The executor is a total function into OrchestrationResult (no
exception escapes it); any throw from a stage body (its shouldExecute
predicate, its handler, or the onStepComplete callback) at a reached plan
entry is caught and converted to a returned failure with statusCode 500
whose context is the pre-stage rolling state with only the error field
added; for a parallel group the converted failure names the joined group
step names. -/
theorem c10_exceptions_converted {ρ α : Type _} (incl : Bool)
    (config : OrchConfig ρ α) :
    (∀ (cur : Ctx ρ α) (s : OrchStep ρ α) (rest : List (OrchEntry ρ α)) (m : String),
        executeSingleStep config s cur = .error m →
        fireCb config.onError (viewOf s.name (mkErr500 s.name m incl)) = .ok () →
        execLoop incl config cur (.single s :: rest)
          = { success := false
              context := { cur with error := some (mkErr500 s.name m incl) }
              error := some (mkErr500 s.name m incl) })
    ∧ (∀ (cur : Ctx ρ α) (g : List (OrchStep ρ α)) (rest : List (OrchEntry ρ α))
          (m : String),
        firstThrow (g.map (fun s => executeSingleStep config s cur)) = some m →
        fireCb config.onError
            (viewOf (joinNames g) (mkErr500 (joinNames g) m incl)) = .ok () →
        execLoop incl config cur (.group g :: rest)
          = { success := false
              context := { cur with error := some (mkErr500 (joinNames g) m incl) }
              error := some (mkErr500 (joinNames g) m incl) }) := by
  constructor
  · intro cur s rest m hthrow honerr
    simp only [execLoop, runEntry, hthrow, innerCatch, honerr]
  · intro cur g rest m hthrow honerr
    simp only [execLoop, runEntry, hthrow, innerCatch, honerr]

/-- C10 witness: a throwing handler converted to the 500 failure. -/
theorem c10_witness :
    executeSingleStep cfgC10 throwStep curC10 = .error "kaput"
    ∧ execLoop true cfgC10 curC10 [.single throwStep]
        = { success := false
            context := { curC10 with error := some (mkErr500 "boom" "kaput" true) }
            error := some (mkErr500 "boom" "kaput" true) } :=
  ⟨rfl, (c10_exceptions_converted true cfgC10).1 curC10 throwStep [] "kaput" rfl rfl⟩

/-- C9 counterexample.  On the transport text "INTENT: greeting\nCONFIDENCE: ."
the CONFIDENCE regex matches the token ".", parseFloat returns NaN, and the
clamp propagates it: the parsed confidence is NaN (modelled none), not a
number in [0, 1]. -/
theorem c9_counterexample :
    (parseResponse c9badText ["greeting"]).confidence = none
    ∧ (parseResponse c9badText ["greeting"]).intent = "greeting" := by
  refine ⟨by decide, by decide⟩

/-! ## Sort and maximum lemmas -/

theorem sortDescBy_perm {β : Type _} (key : β → Int) (l : List β) :
    (sortDescBy key l).Perm l :=
  List.perm_insertionSort _ l

theorem sortDescBy_sorted {β : Type _} (key : β → Int) (l : List β) :
    (sortDescBy key l).Sorted (keyGe key) :=
  List.sorted_insertionSort _ l

theorem le_maxNat {l : List Nat} {x : Nat} (h : x ∈ l) : x ≤ maxNat l := by
  induction l with
  | nil => cases h
  | cons b t ih =>
    rcases List.mem_cons.mp h with rfl | ht
    · exact le_max_left _ _
    · exact le_trans (ih ht) (le_max_right _ _)

theorem maxNat_le {l : List Nat} {m : Nat} (h : ∀ x ∈ l, x ≤ m) :
    maxNat l ≤ m := by
  induction l with
  | nil => exact Nat.zero_le m
  | cons b t ih =>
    exact max_le (h b (List.mem_cons_self b t))
      (ih (fun x hx => h x (List.mem_cons_of_mem b hx)))

theorem maxNat_perm {l l' : List Nat} (h : l.Perm l') : maxNat l = maxNat l' := by
  induction h with
  | nil => rfl
  | cons x _ ih => simp only [maxNat, List.foldr_cons] at *; rw [ih]
  | swap x y t =>
    simp only [maxNat, List.foldr_cons]
    exact Nat.max_left_comm y x _
  | trans _ _ ih1 ih2 => exact ih1.trans ih2

theorem maxNat_subset_le {l1 l2 : List Nat} (h : ∀ x ∈ l1, x ∈ l2) :
    maxNat l1 ≤ maxNat l2 :=
  maxNat_le (fun x hx => le_maxNat (h x hx))

/-- The head of a sorted-descending permutation of S is the maximum of S. -/
theorem head_max_of_sorted_perm {a : Nat} {rest S : List Nat}
    (hperm : (a :: rest).Perm S) (hsort : ∀ x ∈ rest, x ≤ a) :
    a = maxNat S := by
  apply le_antisymm
  · exact le_maxNat (hperm.subset (List.mem_cons_self a rest))
  · apply maxNat_le
    intro x hx
    rcases List.mem_cons.mp (hperm.symm.subset hx) with rfl | ht
    · exact le_refl x
    · exact hsort x ht

/-- Erasing an element commutes with mapping, up to permutation (erasing on
the right removes the first occurrence of the mapped value, which may sit at
a different position). -/
theorem map_erase_perm {β γ : Type _} [DecidableEq β] [DecidableEq γ]
    (f : β → γ) : ∀ {l : List β} {b : β}, b ∈ l →
    ((l.erase b).map f).Perm ((l.map f).erase (f b)) := by
  intro l
  induction l with
  | nil => intro b h; cases h
  | cons x t ih =>
    intro b hb
    by_cases hxb : x = b
    · subst hxb
      rw [List.erase_cons_head, List.map_cons, List.erase_cons_head]
    · have hbt : b ∈ t := by
        rcases List.mem_cons.mp hb with h1 | h1
        · exact absurd h1.symm hxb
        · exact h1
      rw [List.erase_cons_tail, List.map_cons]
      · by_cases hfxb : f x = f b
        · rw [List.map_cons, hfxb, List.erase_cons_head]
          have hmem : f b ∈ t.map f := List.mem_map_of_mem f hbt
          exact ((ih hbt).cons (f b)).trans (List.perm_cons_erase hmem).symm
        · rw [List.map_cons, List.erase_cons_tail]
          · exact (ih hbt).cons (f x)
          · simp [hfxb]
      · simp [hxb]

/-- The head of the sorted score list of detectIntent is the maximum of the
positive per-pattern scores, and the second element (0 when absent) is the
maximum after removing one occurrence of the maximum. -/
theorem best_second_char {S : List ScoredIntent} {b : ScoredIntent}
    {rest : List ScoredIntent}
    (hperm : (b :: rest).Perm S)
    (hsorted : (b :: rest).Sorted (keyGe (fun e : ScoredIntent => (e.score : Int)))) :
    b.score = maxNat (S.map (fun e => e.score))
    ∧ (((rest.head?).map (fun e => e.score)).getD 0)
        = maxNat ((S.map (fun e => e.score)).erase b.score) := by
  have hsort1 : ∀ e ∈ rest, e.score ≤ b.score := by
    intro e he
    have h := (List.sorted_cons.mp hsorted).1 e he
    exact_mod_cast (show ((e.score : Int) ≤ (b.score : Int)) from h)
  have hbS : b ∈ S := hperm.subset (List.mem_cons_self _ _)
  have hpermN : (b.score :: rest.map (fun e => e.score)).Perm
      (S.map (fun e => e.score)) := by
    simpa using hperm.map (fun e => e.score)
  constructor
  · refine head_max_of_sorted_perm hpermN ?_
    intro x hx
    obtain ⟨e, he, rfl⟩ := List.mem_map.mp hx
    exact hsort1 e he
  · have hrest : rest.Perm (S.erase b) := by
      have h1 := hperm.erase b
      rwa [List.erase_cons_head] at h1
    have hmp : (rest.map (fun e => e.score)).Perm
        ((S.map (fun e => e.score)).erase b.score) :=
      (hrest.map _).trans (map_erase_perm (fun e => e.score) hbS)
    cases rest with
    | nil =>
      have h0 : maxNat ((S.map (fun e => e.score)).erase b.score) = 0 := by
        rw [← maxNat_perm hmp]
        rfl
      simpa using h0.symm
    | cons r2 rest2 =>
      have hs2 := (List.sorted_cons.mp hsorted).2
      have hsort2 : ∀ x ∈ rest2.map (fun e => e.score), x ≤ r2.score := by
        intro x hx
        obtain ⟨e, he, rfl⟩ := List.mem_map.mp hx
        have h := (List.sorted_cons.mp hs2).1 e he
        exact_mod_cast (show ((e.score : Int) ≤ (r2.score : Int)) from h)
      have hmax := @head_max_of_sorted_perm r2.score (rest2.map (fun e => e.score))
        ((S.map (fun e => e.score)).erase b.score)
        (by simpa using hmp) hsort2
      simpa using hmax

/-- C5.  For every message and every pattern configuration with lowercased
keywords: the confidence of the keyword classifier equals
min(1, (best − second) / max(best, 1)) over the positive per-pattern scores,
where second is the largest remaining score after removing one occurrence of
the best (0 when at most one pattern matched); the confidence lies in
[0, 1]; a unique matching pattern yields confidence 1; a tie for the top
score yields 0; matchedKeywords is a subset of the keywords of the winning
pattern; and when no keyword matches, the result is the general default. -/
theorem c5_keyword_confidence (message : String) (config : IntentConfig)
    (hlow : ∀ p ∈ config.patterns, ∀ k ∈ p.keywords, jsToLower k = k) :
    ((detectIntent message config).confidence
        = min 1 (((maxNat (posScores message config) : ℚ)
            - (maxNat ((posScores message config).erase
                (maxNat (posScores message config))) : ℚ))
            / max (maxNat (posScores message config) : ℚ) 1))
    ∧ 0 ≤ (detectIntent message config).confidence
    ∧ (detectIntent message config).confidence ≤ 1
    ∧ ((posScores message config).length = 1 →
        (detectIntent message config).confidence = 1)
    ∧ (posScores message config ≠ [] →
        maxNat ((posScores message config).erase (maxNat (posScores message config)))
          = maxNat (posScores message config) →
        (detectIntent message config).confidence = 0)
    ∧ (∀ k ∈ ((detectIntent message config).matchedKeywords).getD [],
        ∃ p ∈ config.patterns,
          (detectIntent message config).intent = p.category ∧ k ∈ p.keywords)
    ∧ ((∀ p ∈ config.patterns, ∀ k ∈ p.keywords,
          strIncludes (jsToLower message) k = false) →
        detectIntent message config
          = { intent := "general", confidence := 0, matchedKeywords := some [] }) := by
  set S := (config.patterns.map (scoreOf (jsToLower message))).filter
      (fun e => 0 < e.score) with hSdef
  have hscores : posScores message config = S.map (fun e => e.score) := by
    unfold posScores
    rw [← hSdef]
  cases hL : sortDescBy (fun e : ScoredIntent => (e.score : Int)) S with
  | nil =>
    have hperm := sortDescBy_perm (fun e : ScoredIntent => (e.score : Int)) S
    rw [hL] at hperm
    have hS : S = [] := hperm.symm.eq_nil
    have hdet : detectIntent message config
        = { intent := "general", confidence := 0, matchedKeywords := some [] } := by
      simp only [detectIntent, ← hSdef, hL]
    have hsc : posScores message config = [] := by
      rw [hscores, hS]
      rfl
    refine ⟨?_, ?_, ?_, ?_, ?_, ?_, ?_⟩
    · rw [hdet, hsc]
      show (0 : ℚ) = min 1 ((((maxNat [] : Nat) : ℚ)
        - ((maxNat (List.erase [] (maxNat [])) : Nat) : ℚ)) / max ((maxNat [] : Nat) : ℚ) 1)
      norm_num [maxNat]
    · rw [hdet]
    · rw [hdet]
      norm_num
    · rw [hsc]
      intro h
      simp at h
    · rw [hsc]
      intro h
      simp at h
    · rw [hdet]
      intro k hk
      simp at hk
    · intro _
      exact hdet
  | cons b rest =>
    have hperm := sortDescBy_perm (fun e : ScoredIntent => (e.score : Int)) S
    rw [hL] at hperm
    have hsorted := sortDescBy_sorted (fun e : ScoredIntent => (e.score : Int)) S
    rw [hL] at hsorted
    have hbs := best_second_char hperm hsorted
    have hbS : b ∈ S := hperm.subset (List.mem_cons_self _ _)
    have hbpos : 0 < b.score := by
      have h1 := (List.mem_filter.mp (hSdef ▸ hbS)).2
      exact of_decide_eq_true h1
    have hbest : maxNat (posScores message config) = b.score := by
      rw [hscores]
      exact hbs.1.symm
    have hsecond : maxNat ((posScores message config).erase
        (maxNat (posScores message config)))
        = ((rest.head?).map (fun e => e.score)).getD 0 := by
      rw [hbest, hscores]
      exact hbs.2.symm
    have hdet : detectIntent message config
        = { intent := b.intent
            confidence := min ((((b.score : Nat) : ℚ)
              - ((((rest.head?).map (fun e => e.score)).getD 0 : Nat) : ℚ))
              / max (((b.score : Nat)) : ℚ) 1) 1
            matchedKeywords := some b.keywords
            metadata := config.metadata.map (fun m => metaFor m b.intent) } := by
      simp only [detectIntent, ← hSdef, hL]
    have hconf : (detectIntent message config).confidence
        = min (((b.score : ℚ)
            - ((((rest.head?).map (fun e => e.score)).getD 0 : Nat) : ℚ))
            / max ((b.score : Nat) : ℚ) 1) 1 := by
      rw [hdet]
    have hsle : (((rest.head?).map (fun e => e.score)).getD 0) ≤ b.score := by
      cases rest with
      | nil => simp
      | cons r2 rest2 =>
        simp only [List.head?_cons, Option.map_some', Option.getD_some]
        have h := (List.sorted_cons.mp hsorted).1 r2 (List.mem_cons_self _ _)
        exact_mod_cast (show ((r2.score : Int) ≤ (b.score : Int)) from h)
    have hdenom : (0 : ℚ) < max ((b.score : Nat) : ℚ) 1 :=
      lt_of_lt_of_le zero_lt_one (le_max_right _ _)
    refine ⟨?_, ?_, ?_, ?_, ?_, ?_, ?_⟩
    · rw [hconf, hsecond, hbest]
      exact min_comm _ _
    · rw [hconf]
      refine le_min ?_ zero_le_one
      refine div_nonneg ?_ (le_of_lt hdenom)
      rw [sub_nonneg]
      exact_mod_cast hsle
    · rw [hconf]
      exact min_le_right _ _
    · intro hlen
      rw [hscores] at hlen
      have hSlen : S.length = 1 := by simpa using hlen
      have hrest : rest = [] := by
        have hl := hperm.length_eq
        rw [hSlen] at hl
        simpa using hl
      subst hrest
      rw [hconf]
      simp only [List.head?_nil, Option.map_none', Option.getD_none]
      have hb1 : (1 : ℚ) ≤ ((b.score : Nat) : ℚ) := by exact_mod_cast hbpos
      rw [Nat.cast_zero, sub_zero, max_eq_left hb1,
        div_self (ne_of_gt (lt_of_lt_of_le zero_lt_one hb1))]
      exact min_self 1
    · intro _ htie
      rw [hsecond, hbest] at htie
      rw [hconf, htie]
      simp
    · intro k hk
      rw [hdet] at hk
      simp only [Option.getD_some] at hk
      obtain ⟨p, hp, hpe⟩ := List.mem_map.mp (List.mem_filter.mp (hSdef ▸ hbS)).1
      refine ⟨p, hp, ?_, ?_⟩
      · rw [hdet]
        show b.intent = p.category
        rw [← hpe]
        rfl
      · rw [← hpe] at hk
        exact (List.mem_filter.mp hk).1
    · intro hnm
      exfalso
      have hSnil : S = [] := by
        rw [hSdef]
        refine List.filter_eq_nil.mpr ?_
        intro e he
        obtain ⟨p, hp, rfl⟩ := List.mem_map.mp he
        have hmatch : p.keywords.filter (fun k => strIncludes (jsToLower message) k)
            = [] := by
          refine List.filter_eq_nil.mpr ?_
          intro k hk
          rw [hnm p hp k hk]
          simp
        simp [scoreOf, hmatch]
      rw [hSnil] at hbS
      exact absurd hbS (List.not_mem_nil b)

/-- C5 witness: spec scenario 1 evaluated through the theorem - the message
"Hello there" against greeting/help patterns matches exactly one pattern, so
the confidence is 1. -/
theorem c5_witness :
    (∀ p ∈ cfgW5.patterns, ∀ k ∈ p.keywords, jsToLower k = k)
    ∧ (posScores "Hello there" cfgW5).length = 1
    ∧ (detectIntent "Hello there" cfgW5).confidence = 1 :=
  ⟨by decide, by decide,
    (c5_keyword_confidence "Hello there" cfgW5 (by decide)).2.2.2.1 (by decide)⟩

/-! ## C6: optimizer dedup behaviour -/

/-- C6 (amended).  In a selective selection the optimizer does not
deduplicate by id: every occurrence of a section id in the filtered catalog
appears in sectionsIncluded (the priority sort is a permutation, so the
occurrence counts agree), and each occurrence contributes its content. -/
theorem c6_no_dedup (topics : List String) (isFirst : Bool)
    (cfg : ContextConfig) (tone : Option String) (j : String)
    (hsel : useFullContext cfg.strategy isFirst = false) :
    ((buildContext topics isFirst cfg tone).sectionsIncluded).count j
      = (cfg.sections.filter (selFilter topics)).countP (fun s => s.id == j) := by
  simp only [buildContext, hsel, Bool.false_eq_true, if_false]
  rw [List.count_eq_countP, List.countP_map]
  exact (sortDescBy_perm _ _).countP_eq _

/-- C6 witness: the duplicate-id catalog, evaluated through the amended
theorem. -/
theorem c6_witness :
    useFullContext cfgDup.strategy false = false
    ∧ ((buildContext [] false cfgDup none).sectionsIncluded).count "dup"
        = (cfgDup.sections.filter (selFilter [])).countP (fun s => s.id == "dup") :=
  ⟨by decide, c6_no_dedup [] false cfgDup none "dup" (by decide)⟩

/-! ## C4: TTL cache single flight -/

/-- Arrivals while a load is in flight only append to the waiter list. -/
theorem foldl_arrive_join {V : Type _} (cs : List Nat) (s : CacheSt V)
    (subs : List Nat)
    (hstale : ∀ v exp, s.entry = some (v, exp) → ¬ s.now < exp)
    (hp : s.pending = some subs) :
    cs.foldl (fun st c => stepArrive c st) s
      = { s with pending := some (subs ++ cs) } := by
  induction cs generalizing s subs with
  | nil =>
    cases s
    simp only [List.foldl_nil, List.append_nil]
    simp_all
  | cons c t ih =>
    have harr : stepArrive c s = { s with pending := some (subs ++ [c]) } := by
      cases he : s.entry with
      | none => simp only [stepArrive, arriveLoad, he, hp]
      | some ve =>
        obtain ⟨v, exp⟩ := ve
        simp only [stepArrive, arriveLoad, he, hp, if_neg (hstale v exp he)]
    rw [List.foldl_cons, harr,
      ih { s with pending := some (subs ++ [c]) } (subs ++ [c]) hstale rfl]
    simp

/-- C4.  For a key whose entry is absent or expired, a burst of concurrent
getOrLoad calls invokes the loader exactly once and coalesces every caller
onto the single in-flight load; on resolution all callers receive the same
value and the entry is written with now + ttl; on rejection all callers
observe the same error, the pending record is removed, and the stored entry
is untouched. -/
theorem c4_single_flight {V : Type _} (entry0 : Option (V × Nat))
    (now ttl : Nat)
    (hstale : ∀ v exp, entry0 = some (v, exp) → ¬ now < exp)
    (cs : List Nat) (hne : cs ≠ []) (v : V) (e : String) :
    (cs.foldl (fun st c => stepArrive c st) (initSt entry0 now)).loads = 1
    ∧ (cs.foldl (fun st c => stepArrive c st) (initSt entry0 now)).pending = some cs
    ∧ (cs.foldl (fun st c => stepArrive c st) (initSt entry0 now)).entry = entry0
    ∧ (cs.foldl (fun st c => stepArrive c st) (initSt entry0 now)).got = []
    ∧ (stepResolveOk v ttl (cs.foldl (fun st c => stepArrive c st) (initSt entry0 now))).got
        = cs.map (fun c => (c, Except.ok v))
    ∧ (stepResolveOk v ttl (cs.foldl (fun st c => stepArrive c st) (initSt entry0 now))).entry
        = some (v, now + ttl)
    ∧ (stepResolveErr e (cs.foldl (fun st c => stepArrive c st) (initSt entry0 now))).got
        = cs.map (fun c => (c, Except.error e))
    ∧ (stepResolveErr e (cs.foldl (fun st c => stepArrive c st) (initSt entry0 now))).entry
        = entry0
    ∧ (stepResolveErr e (cs.foldl (fun st c => stepArrive c st) (initSt entry0 now))).pending
        = none := by
  cases cs with
  | nil => exact absurd rfl hne
  | cons c t =>
    have hfirst : stepArrive c (initSt entry0 now)
        = { initSt entry0 now with pending := some [c], loads := 1 } := by
      cases he : entry0 with
      | none => simp only [initSt, stepArrive, arriveLoad, he]
      | some ve =>
        obtain ⟨v0, exp⟩ := ve
        simp only [initSt, stepArrive, arriveLoad, he, if_neg (hstale v0 exp he)]
    have hfold : (c :: t).foldl (fun st c => stepArrive c st) (initSt entry0 now)
        = { initSt entry0 now with pending := some (c :: t), loads := 1 } := by
      rw [List.foldl_cons, hfirst,
        foldl_arrive_join t _ [c] (fun v0 exp he => hstale v0 exp he) rfl]
      rfl
    rw [hfold]
    refine ⟨rfl, rfl, rfl, rfl, ?_, rfl, ?_, rfl, rfl⟩
    · simp [stepResolveOk, initSt]
    · simp [stepResolveErr, initSt]

/-- C4 witness: two concurrent callers on an empty cache. -/
theorem c4_witness :
    ([7, 8].foldl (fun st c => stepArrive c st) (initSt (V := Nat) none 100)).loads = 1
    ∧ (stepResolveOk 42 1000
        ([7, 8].foldl (fun st c => stepArrive c st) (initSt (V := Nat) none 100))).got
        = [(7, Except.ok 42), (8, Except.ok 42)]
    ∧ (stepResolveErr "load failed"
        ([7, 8].foldl (fun st c => stepArrive c st) (initSt (V := Nat) none 100))).entry
        = none := by
  have h := c4_single_flight (V := Nat) none 100 1000
    (fun v exp he => by cases he) [7, 8] (by decide) 42 "load failed"
  exact ⟨h.1, h.2.2.2.2.1, h.2.2.2.2.2.2.2.1⟩

/-! ## C9: textual parser robustness -/

/-- C9 (amended).  The textual parser lowercases the parsed intent and
coerces it to general when it is not a configured category; a missing
CONFIDENCE field defaults to 0.5; every numeric confidence is clamped into
[0, 1]; but when the matched CONFIDENCE token contains no digit, parseFloat
yields NaN (modelled none), which survives the clamp, so the confidence is
NaN rather than a number in [0, 1].  The parser is a total function: it
never throws. -/
theorem c9_parse_robust (text : String) (cats : List String) :
    ((parseResponse text cats).intent = "general"
      ∨ ∃ run, findLabeledRun "intent:".data isWordChar text.data = some run
          ∧ (parseResponse text cats).intent = jsToLower (String.mk run)
          ∧ (parseResponse text cats).intent ∈ cats)
    ∧ (findLabeledRun "confidence:".data isConfChar text.data = none →
        (parseResponse text cats).confidence = some (1/2))
    ∧ (∀ q : ℚ, (parseResponse text cats).confidence = some q → 0 ≤ q ∧ q ≤ 1)
    ∧ ((parseResponse text cats).confidence = none →
        ∃ run, findLabeledRun "confidence:".data isConfChar text.data = some run
          ∧ jsParseFloat run = none) := by
  refine ⟨?_, ?_, ?_, ?_⟩
  · cases hIR : findLabeledRun "intent:".data isWordChar text.data with
    | none =>
      left
      simp only [parseResponse, hIR]
      by_cases hc : cats.contains "general" <;> simp [hc]
    | some run =>
      by_cases hc : cats.contains (jsToLower (String.mk run))
      · right
        refine ⟨run, rfl, ?_, ?_⟩
        · simp only [parseResponse, hIR, hc, if_true]
        · simp only [parseResponse, hIR, hc, if_true]
          exact List.elem_iff.mp hc
      · left
        simp only [parseResponse, hIR]
        rw [if_neg hc]
  · intro hCR
    simp only [parseResponse, hCR]
  · intro q hq
    cases hCR : findLabeledRun "confidence:".data isConfChar text.data with
    | none =>
      simp only [parseResponse, hCR, Option.some.injEq] at hq
      subst hq
      norm_num
    | some run =>
      cases hPF : jsParseFloat run with
      | none =>
        simp [parseResponse, hCR, hPF, jsMin1, jsMax0] at hq
      | some p =>
        simp only [parseResponse, hCR, hPF, jsMin1, jsMax0, Option.map_some',
          Option.some.injEq] at hq
        subst hq
        constructor
        · exact le_sup_left
        · exact sup_le (by norm_num) inf_le_left
  · intro hnan
    cases hCR : findLabeledRun "confidence:".data isConfChar text.data with
    | none =>
      simp [parseResponse, hCR] at hnan
    | some run =>
      cases hPF : jsParseFloat run with
      | none => exact ⟨run, rfl, hPF⟩
      | some p =>
        simp [parseResponse, hCR, hPF, jsMin1, jsMax0] at hnan

/-- C9 witness: a text with no CONFIDENCE field defaults to 0.5. -/
theorem c9_witness :
    findLabeledRun "confidence:".data isConfChar "hello world".data = none
    ∧ (parseResponse "hello world" ["greeting"]).confidence = some (1/2) :=
  ⟨by decide, (c9_parse_robust "hello world" ["greeting"]).2.1 (by decide)⟩

end AIPO
